import Mathlib

/-!
Shallow embedding of contribution_redistributor.py (class ContributionRedistributor).

Calendar dates are represented by their proleptic Gregorian ordinal (the
representation used by Python datetime.date: ordinal 1 is 0001-01-01), so that
date comparison, date subtraction in days and the day-by-day loop of the
planner are plain Nat operations, exactly as in the source.  The civil
(year, month, day) view needed by the per-date seed int(date.strftime(%Y%m%d))
is recovered with the standard civil-from-days algorithm.

The Python random module is a stateful generator: random.seed(n) resets its
state, random.randint(a, b) draws and advances it.  It is embedded as an
explicit generator interface (state type, seed, randint) threaded through the
planner loop exactly where the source calls it.
-/

namespace ContributionRedistributor

/-- Civil (year, month, day) of a proleptic Gregorian ordinal
(Hinnant civil-from-days algorithm, shifted so input 1 is 0001-01-01). -/
def civilFromOrdinal (n : Nat) : Nat × Nat × Nat :=
  let z := n + 305
  let era := z / 146097
  let doe := z % 146097
  let yoe := (doe - doe / 1460 + doe / 36524 - doe / 146096) / 365
  let y := yoe + era * 400
  let doy := doe - (365 * yoe + yoe / 4 - yoe / 100)
  let mp := (5 * doy + 2) / 153
  let d := doy - (153 * mp + 2) / 5 + 1
  let m := if mp < 10 then mp + 3 else mp - 9
  (if m ≤ 2 then y + 1 else y, m, d)

/-- Proleptic Gregorian ordinal of a civil (year, month, day)
(Hinnant days-from-civil algorithm; Python date(y, m, d).toordinal()). -/
def ordinalOfCivil (y m d : Nat) : Nat :=
  let y1 := if m ≤ 2 then y - 1 else y
  let era := y1 / 400
  let yoe := y1 % 400
  let mp := if 2 < m then m - 3 else m + 9
  let doy := (153 * mp + 2) / 5 + d - 1
  let doe := yoe * 365 + yoe / 4 - yoe / 100 + doy
  era * 146097 + doe - 305

/-- Python date.weekday(): Monday is 0, ..., Sunday is 6. -/
def weekday (n : Nat) : Nat := (n + 6) % 7

/-- Source line 166: is_weekend = date.weekday() >= 5 (Saturday=5, Sunday=6). -/
def isWeekend (n : Nat) : Bool := decide (5 ≤ weekday n)

/-- Source line 163: the per-date seed int(date.strftime(%Y%m%d)). -/
def dateSeed (n : Nat) : Nat :=
  let c := civilFromOrdinal n
  c.1 * 10000 + c.2.1 * 100 + c.2.2

/-- An aware Python datetime: local calendar date (ordinal), time of day in
microseconds since local midnight, and UTC offset in microseconds. -/
structure Timestamp where
  ordinal : Nat
  tod : Nat
  tz : Int
deriving DecidableEq

/-- Comparison key of aware datetimes: Python compares them as UTC instants. -/
def timeKey (t : Timestamp) : Int :=
  (t.ordinal : Int) * 86400000000 + (t.tod : Int) - t.tz

/-- A collected commit dict (hash, date, message, email, repo); original_date
always equals date at collection time and is omitted. -/
structure Commit where
  hash : String
  date : Timestamp
  message : String
  email : String
  repo : String
deriving DecidableEq

/-- A value of the plan dict: plan[hash] = old_date, new_date, repo, message.
The plan is modelled as the list of insertions in insertion order. -/
structure PlanEntry where
  hash : String
  old_date : Timestamp
  new_date : Timestamp
  repo : String
  message : String
deriving DecidableEq

/-- Sort order of all_commits.sort(key=lambda x: x.date): aware datetimes
compare as instants. -/
def commitBefore (a b : Commit) : Prop := timeKey a.date ≤ timeKey b.date

instance : DecidableRel commitBefore := fun a b => Int.decLe (timeKey a.date) (timeKey b.date)

instance : IsTotal Commit commitBefore :=
  ⟨fun a b => Int.le_total (timeKey a.date) (timeKey b.date)⟩

instance : IsTrans Commit commitBefore :=
  ⟨fun _ _ _ hab hbc => Int.le_trans hab hbc⟩

/-- The stateful pseudo-random interface of the Python random module:
seed n resets the generator state, randint g a b draws an integer and
advances the state. -/
structure PyRandom (σ : Type) where
  seed : Nat → σ
  randint : σ → Nat → Nat → Nat × σ

/-- The target count the source draws for a date: random.seed of the date
encoding followed by random.randint(6, 10) on weekends, random.randint(2, 6)
on weekdays (source lines 163-171). -/
def dailyTarget {σ : Type} (G : PyRandom σ) (d : Nat) : Nat :=
  if isWeekend d then (G.randint (G.seed (dateSeed d)) 6 10).1
  else (G.randint (G.seed (dateSeed d)) 2 6).1

/-- Source lines 181-192: the plan entry for a commit assigned to date d.
datetime.combine(date, commit.date.time()).replace(tzinfo=commit.date.tzinfo)
keeps the time of day and the offset and replaces the calendar date. -/
def mkEntry (d : Nat) (c : Commit) : PlanEntry :=
  { hash := c.hash, old_date := c.date,
    new_date := { ordinal := d, tod := c.date.tod, tz := c.date.tz },
    repo := c.repo, message := c.message }

/-- Source lines 162-192: the day loop.  For each date (ascending) reseed from
the date, draw the target count, take min(target, pool) commits off the front
of the pool and plan them onto this date. -/
def planDays {σ : Type} (G : PyRandom σ) :
    List Nat → List Commit → σ → List PlanEntry
  | [], _, _ => []
  | d :: ds, pool, _ =>
    let g1 := G.seed (dateSeed d)
    let tg := if isWeekend d then G.randint g1 6 10 else G.randint g1 2 6
    let actual := min tg.1 pool.length
    if 0 < actual then
      (pool.take actual).map (mkEntry d) ++ planDays G ds (pool.drop actual) tg.2
    else
      planDays G ds pool tg.2

/-- The candidate dates first_date .. last_date inclusive, ascending
(the while loop of source lines 154-156, iterated sorted at line 162);
empty when last < first. -/
def dateRange (first last : Nat) : List Nat := List.range' first (last + 1 - first)

/-- Source lines 134-194: create_redistribution_plan.  The pool is sorted by
original timestamp (stable, so extensionally the Python list.sort), the date
range is spanned by the first and last element of the sorted pool, and the
day loop consumes the pool. -/
def create_redistribution_plan {σ : Type} (G : PyRandom σ) (g : σ)
    (pool : List Commit) : List PlanEntry :=
  match pool.insertionSort commitBefore with
  | [] => []
  | c :: rest =>
      planDays G (dateRange c.date.ordinal (((c :: rest).getLastD c).date.ordinal))
        (c :: rest) g

/-- The candidate date list the planner iterates for a given pool. -/
def poolDateRange (pool : List Commit) : List Nat :=
  match pool.insertionSort commitBefore with
  | [] => []
  | c :: rest => dateRange c.date.ordinal (((c :: rest).getLastD c).date.ordinal)

/-- Sum of the daily target counts over the date range of a pool: the total
demand of the planner run. -/
def totalDemand {σ : Type} (G : PyRandom σ) (pool : List Commit) : Nat :=
  ((poolDateRange pool).map (dailyTarget G)).sum

/-- The sequence of (date, drawn target) pairs of the day loop, with the
generator state threaded exactly as in planDays. -/
def drawnTargets {σ : Type} (G : PyRandom σ) : List Nat → σ → List (Nat × Nat)
  | [], _ => []
  | d :: ds, _ =>
    let g1 := G.seed (dateSeed d)
    let tg := if isWeekend d then G.randint g1 6 10 else G.randint g1 2 6
    (d, tg.1) :: drawnTargets G ds tg.2

/-- The identity of a plan entry apart from its newly assigned date. -/
def origTuple (e : PlanEntry) : String × Timestamp × String × String :=
  (e.hash, e.old_date, e.repo, e.message)

/-- The data a commit contributes to its plan entry. -/
def commitTuple (c : Commit) : String × Timestamp × String × String :=
  (c.hash, c.date, c.repo, c.message)

/-- Source lines 86-91: date_counts[commit.date.date()], the number of pool
commits whose local calendar date is d. -/
def dateCount (pool : List Commit) (d : Nat) : Nat :=
  pool.countP (fun c => c.date.ordinal == d)

/-- Source line 111: all_dates = sorted(date_counts.keys()), the distinct
local dates of the pool in ascending order. -/
def activeDates (pool : List Commit) : List Nat :=
  ((pool.map fun c => c.date.ordinal).dedup).insertionSort (· ≤ ·)

/-- The stats dict of source lines 100-108.  Python statistics.stdev returns a
float square root; since the square root is not rational the field std_dev_sq
holds its square (the sample variance), which determines it: the guard of
line 105 and the value 0 are preserved because sqrt 0 = 0. -/
structure Stats where
  total_commits : Nat
  days_with_commits : Nat
  mean : ℚ
  median : ℚ
  std_dev_sq : ℚ
  min : Nat
  max : Nat
deriving DecidableEq

/-- statistics.mean of a list of counts, as a rational. -/
def meanQ (l : List Nat) : ℚ := (l.sum : ℚ) / (l.length : ℚ)

/-- statistics.median: sort; the middle element when the length is odd, the
average of the two middle elements when it is even. -/
def medianQ (l : List Nat) : ℚ :=
  let s := l.insertionSort (· ≤ ·)
  let n := s.length
  if n % 2 = 1 then (s.getD (n / 2) 0 : ℚ)
  else ((s.getD (n / 2 - 1) 0 : ℚ) + (s.getD (n / 2) 0 : ℚ)) / 2

/-- The square of statistics.stdev: the sample variance, sum of squared
deviations from the mean divided by (n - 1). -/
def sampleVarQ (l : List Nat) : ℚ :=
  (l.map (fun x => ((x : ℚ) - meanQ l) ^ 2)).sum / ((l.length : ℚ) - 1)

/-- Python min over a nonempty list (0 for the empty list, which the source
never reaches thanks to its emptiness guard). -/
def listMin (l : List Nat) : Nat :=
  match l with
  | [] => 0
  | x :: xs => xs.foldl Nat.min x

/-- Python max over a nonempty list (0 for the empty list, as for listMin). -/
def listMax (l : List Nat) : Nat :=
  match l with
  | [] => 0
  | x :: xs => xs.foldl Nat.max x

/-- The stats dict computed from the per-day counts (source lines 98-108). -/
def computeStats (counts : List Nat) : Stats :=
  { total_commits := counts.sum
    days_with_commits := counts.length
    mean := meanQ counts
    median := medianQ counts
    std_dev_sq := if 1 < counts.length then sampleVarQ counts else 0
    min := listMin counts
    max := listMax counts }

/-- A gap record of source lines 120-126 (the source dict keys are start, end,
days, commits_before, commits_after; end is a Lean keyword, written stop). -/
structure Gap where
  start : Nat
  stop : Nat
  days : Nat
  commits_before : Nat
  commits_after : Nat
deriving DecidableEq

/-- Source lines 114-126: walk adjacent pairs of the sorted active dates;
gap_days = (next - current).days - 1; record a Gap when gap_days exceeds the
threshold. -/
def findGaps (thr : Nat) (cnt : Nat → Nat) : List Nat → List Gap
  | a :: b :: rest =>
    (if thr < b - a - 1 then [⟨a, b, b - a - 1, cnt a, cnt b⟩] else [])
      ++ findGaps thr cnt (b :: rest)
  | _ => []

/-- Source lines 83-128: analyze_contributions.  None when the pool is empty
(no date has a count); otherwise the stats over the per-day counts and the
gaps over the sorted active dates.  The counts list is taken in sorted date
order; the source takes it in dict insertion order, and every consumer of the
counts (sum, len, mean, median, stdev, min, max) is order-independent. -/
def analyze_contributions (maxGapDays : Nat) (pool : List Commit) :
    Option (Stats × List Gap) :=
  if pool = [] then none
  else
    let counts := (activeDates pool).map (dateCount pool)
    some (computeStats counts, findGaps maxGapDays (dateCount pool) (activeDates pool))

/-- Python str.strip character class (ASCII fragment of unicode whitespace). -/
def isSpaceCh (c : Char) : Bool :=
  c == ' ' || c == '\t' || c == '\n' || c == '\r' || c == '\x0b' || c == '\x0c'

/-- Python str.strip: drop whitespace at both ends. -/
def strip (cs : List Char) : List Char :=
  ((cs.dropWhile isSpaceCh).reverse.dropWhile isSpaceCh).reverse

/-- Python str.split(sep, maxsplit) for a one-character separator: at most
maxsplit splits, leftmost first; the remainder after the last split is kept
whole, separators included. -/
def splitMaxCh (sep : Char) : Nat → List Char → List (List Char)
  | 0, cs => [cs]
  | n + 1, cs =>
    match cs.dropWhile (· ≠ sep) with
    | [] => [cs]
    | _ :: post => cs.takeWhile (· ≠ sep) :: splitMaxCh sep n post

/-- Python str.split(sep) without maxsplit: length cs splits always suffice
since every split consumes a separator character. -/
def splitAllCh (sep : Char) (cs : List Char) : List (List Char) :=
  splitMaxCh sep cs.length cs

/-- Python str.lower, characterwise. -/
def lowerCh (cs : List Char) : List Char := cs.map Char.toLower

/-- A parsed git log line: the four fields hash, ISO date text, message,
author email (source line 61).  The date field is kept as text; the claims
about the collector concern field splitting and filtering, not date parsing. -/
structure RawCommit where
  hash : List Char
  date_str : List Char
  message : List Char
  email : List Char
deriving DecidableEq

/-- Source lines 55-65: skip empty lines, split on the pipe with maxsplit 3,
require at least four fields (with maxsplit 3 the split yields at most four,
so at least four means exactly four), and drop commits whose author email
does not match the configured email case-insensitively. -/
def parseLine (github_email : Option (List Char)) (line : List Char) :
    Option RawCommit :=
  if line = [] then none
  else
    match splitMaxCh '|' 3 line with
    | [h, d, m, e] =>
      match github_email with
      | some ge => if lowerCh e = lowerCh ge then some ⟨h, d, m, e⟩ else none
      | none => some ⟨h, d, m, e⟩
    | _ => none

/-- Source lines 51-81: get_commits_from_repo over the outcome of the git
subprocess.  A non-zero exit (except branch, line 79) is logged and yields
the empty list; success parses stdout.strip().split on newlines.  The
function is total: no failure escapes it. -/
def get_commits_from_repo (github_email : Option (List Char))
    (result : Except (List Char) (List Char)) : List RawCommit :=
  match result with
  | .error _ => []
  | .ok out => (splitAllCh '\n' (strip out)).filterMap (parseLine github_email)

/-- Source lines 388-393 of run(): every repository is queried in turn and the
per-repository commit lists are concatenated. -/
def collectCommits (github_email : Option (List Char))
    (results : List (Except (List Char) (List Char))) : List RawCommit :=
  results.flatMap (get_commits_from_repo github_email)

/-- Generator-free form of the day loop: because the source reseeds the
generator from the date before every draw, the target of each day is the
date-determined dailyTarget and the incoming generator state is irrelevant.
planDays_eq_planDaysP proves the two forms equal. -/
def planDaysP {σ : Type} (G : PyRandom σ) : List Nat → List Commit → List PlanEntry
  | [], _ => []
  | d :: ds, pool =>
    let a := min (dailyTarget G d) pool.length
    if 0 < a then (pool.take a).map (mkEntry d) ++ planDaysP G ds (pool.drop a)
    else planDaysP G ds pool

/-- A concrete generator instance for evaluating the planner on test pools:
randint always answers its lower bound. -/
def G0 : PyRandom Nat := { seed := fun n => n, randint := fun g a _ => (a, g) }

/-- A test commit dated Monday 2024-01-01 (ordinal 738886) at local midnight. -/
def wcommit1 : Commit := ⟨"c1", ⟨738886, 0, 0⟩, "m1", "e", "r1"⟩

/-- A test commit dated Monday 2024-01-01, one hour after wcommit1. -/
def wcommit2 : Commit := ⟨"c2", ⟨738886, 3600000000, 0⟩, "m2", "e", "r1"⟩

/-- A two-commit test pool, listed in reverse chronological order. -/
def wpool : List Commit := [wcommit2, wcommit1]

/-- The test pool of the gap-detection scenario: three commits on 2024-01-01
and two on 2024-01-10. -/
def gapPool : List Commit :=
  [⟨"g1", ⟨ordinalOfCivil 2024 1 1, 0, 0⟩, "m", "e", "r"⟩,
   ⟨"g2", ⟨ordinalOfCivil 2024 1 1, 1, 0⟩, "m", "e", "r"⟩,
   ⟨"g3", ⟨ordinalOfCivil 2024 1 1, 2, 0⟩, "m", "e", "r"⟩,
   ⟨"g4", ⟨ordinalOfCivil 2024 1 10, 0, 0⟩, "m", "e", "r"⟩,
   ⟨"g5", ⟨ordinalOfCivil 2024 1 10, 1, 0⟩, "m", "e", "r"⟩]

/-- The day loop ignores the incoming generator state: each day starts with
random.seed of the date. -/
theorem planDays_eq_planDaysP {σ : Type} (G : PyRandom σ) (ds : List Nat)
    (pool : List Commit) (g : σ) : planDays G ds pool g = planDaysP G ds pool := by
  induction ds generalizing pool g with
  | nil => rfl
  | cons d ds ih =>
    rw [planDays, planDaysP]
    simp only [dailyTarget]
    cases hw : isWeekend d <;> simp [hw] <;> split <;> simp [ih]

/-- An exhausted pool yields no further plan entries, whatever dates remain. -/
theorem planDaysP_nil_pool {σ : Type} (G : PyRandom σ) (ds : List Nat) :
    planDaysP G ds [] = [] := by
  induction ds with
  | nil => rfl
  | cons d ds ih => simp [planDaysP, ih]

/-- The planner is the generator-free day loop over the sorted pool and its
date range. -/
theorem create_eq_planDaysP {σ : Type} (G : PyRandom σ) (g : σ) (pool : List Commit) :
    create_redistribution_plan G g pool
      = planDaysP G (poolDateRange pool) (pool.insertionSort commitBefore) := by
  unfold create_redistribution_plan poolDateRange
  cases h : pool.insertionSort commitBefore with
  | nil => rfl
  | cons c rest => exact planDays_eq_planDaysP G _ _ g

/-- Forgetting the new dates, the day loop emits exactly the first
sum-of-targets commits of its pool, in pool order. -/
theorem planDaysP_map_origTuple {σ : Type} (G : PyRandom σ) (ds : List Nat) (pool : List Commit) :
    (planDaysP G ds pool).map origTuple
      = (pool.take ((ds.map (dailyTarget G)).sum)).map commitTuple := by
  induction ds generalizing pool with
  | nil => simp [planDaysP]
  | cons d ds ih =>
    rw [planDaysP]
    simp only [List.map_cons, List.sum_cons]
    by_cases h : 0 < min (dailyTarget G d) pool.length
    · rw [if_pos h, List.map_append, List.map_map]
      have hcomp : origTuple ∘ mkEntry d = commitTuple := rfl
      rw [hcomp, ih, ← List.map_append]
      congr 1
      rw [List.take_add]
      rcases Nat.le_total (dailyTarget G d) pool.length with hle | hle
      · rw [Nat.min_eq_left hle]
      · rw [Nat.min_eq_right hle, List.take_length, List.take_of_length_le hle,
            List.drop_length, List.drop_eq_nil_of_le hle]
    · rw [if_neg h]
      have h0 : min (dailyTarget G d) pool.length = 0 :=
        Nat.eq_zero_of_not_pos h
      rcases Nat.min_eq_zero_iff.mp h0 with h1 | h1
      · rw [ih, h1, Nat.zero_add]
      · have hp : pool = [] := List.length_eq_zero.mp h1
        subst hp
        simp [planDaysP_nil_pool]

/-- The day loop plans min(total demand, pool size) commits. -/
theorem planDaysP_length {σ : Type} (G : PyRandom σ) (ds : List Nat) (pool : List Commit) :
    (planDaysP G ds pool).length = min ((ds.map (dailyTarget G)).sum) pool.length := by
  have := congrArg List.length (planDaysP_map_origTuple G ds pool)
  simpa using this

/-- Every entry the day loop emits keeps the time of day and offset of its
commit, and its new date is one of the loop dates. -/
theorem mem_planDaysP {σ : Type} (G : PyRandom σ) (ds : List Nat) (pool : List Commit)
    (e : PlanEntry) (he : e ∈ planDaysP G ds pool) :
    (e.new_date.tod = e.old_date.tod ∧ e.new_date.tz = e.old_date.tz)
      ∧ e.new_date.ordinal ∈ ds := by
  induction ds generalizing pool with
  | nil => simp [planDaysP] at he
  | cons d ds ih =>
    rw [planDaysP] at he
    by_cases h : 0 < min (dailyTarget G d) pool.length
    · rw [if_pos h] at he
      rcases List.mem_append.mp he with h1 | h1
      · rcases List.mem_map.mp h1 with ⟨c, _, rfl⟩
        simp [mkEntry]
      · rcases ih _ h1 with ⟨h2, h3⟩
        exact ⟨h2, List.mem_cons_of_mem _ h3⟩
    · rw [if_neg h] at he
      rcases ih _ he with ⟨h2, h3⟩
      exact ⟨h2, List.mem_cons_of_mem _ h3⟩

/-- When the loop dates ascend, so do the newly assigned dates along the plan. -/
theorem planDaysP_new_sorted {σ : Type} (G : PyRandom σ) (ds : List Nat) (pool : List Commit)
    (hds : ds.Pairwise (· ≤ ·)) :
    (planDaysP G ds pool).Pairwise
      (fun e1 e2 => e1.new_date.ordinal ≤ e2.new_date.ordinal) := by
  induction ds generalizing pool with
  | nil => simp [planDaysP]
  | cons d ds ih =>
    rw [List.pairwise_cons] at hds
    rw [planDaysP]
    by_cases h : 0 < min (dailyTarget G d) pool.length
    · rw [if_pos h, List.pairwise_append]
      refine ⟨?_, ih _ hds.2, ?_⟩
      · exact List.pairwise_of_forall (by simp [mkEntry]) |>.map (mkEntry d) (fun a b hab => hab)
      · intro a ha b hb
        rcases List.mem_map.mp ha with ⟨c, _, rfl⟩
        have hmem := (mem_planDaysP G ds _ b hb).2
        simpa [mkEntry] using hds.1 _ hmem
    · rw [if_neg h]
      exact ih _ hds.2

/-- The original-timestamp keys along the plan are those of a prefix of the
pool the day loop consumes. -/
theorem planDaysP_map_oldKey {σ : Type} (G : PyRandom σ) (ds : List Nat) (pool : List Commit) :
    (planDaysP G ds pool).map (fun e => timeKey e.old_date)
      = (pool.take ((ds.map (dailyTarget G)).sum)).map (fun c => timeKey c.date) := by
  have h := congrArg (List.map (fun t : String × Timestamp × String × String => timeKey t.2.1))
    (planDaysP_map_origTuple G ds pool)
  simpa [List.map_map, Function.comp, origTuple, commitTuple] using h

/-- When the pool is sorted by original timestamp, the original-timestamp keys
ascend along the plan. -/
theorem planDaysP_old_sorted {σ : Type} (G : PyRandom σ) (ds : List Nat) (pool : List Commit)
    (hp : pool.Pairwise commitBefore) :
    ((planDaysP G ds pool).map (fun e => timeKey e.old_date)).Pairwise (· ≤ ·) := by
  rw [planDaysP_map_oldKey, List.pairwise_map]
  exact (hp.sublist (List.take_sublist _ _))

/-- The candidate date list of any pool ascends. -/
theorem poolDateRange_pairwise (pool : List Commit) :
    (poolDateRange pool).Pairwise (· ≤ ·) := by
  unfold poolDateRange
  cases pool.insertionSort commitBefore with
  | nil => simp
  | cons c rest =>
    exact (List.pairwise_lt_range' _ _).imp (fun h => Nat.le_of_lt h)

/-- takeWhile up to the first separator returns the separator-free head. -/
theorem takeWhile_append_sep (sep : Char) (pre post : List Char) (hp : sep ∉ pre) :
    (pre ++ sep :: post).takeWhile (· ≠ sep) = pre := by
  induction pre with
  | nil => rw [List.nil_append, List.takeWhile_cons, if_neg (by simp)]
  | cons a pre ih =>
    have ha : a ≠ sep := fun h => hp (h ▸ List.mem_cons_self a pre)
    have ih2 := ih (fun h => hp (List.mem_cons_of_mem _ h))
    rw [List.cons_append, List.takeWhile_cons, if_pos (by simp [ha]), ih2]

/-- dropWhile up to the first separator returns the tail from the separator. -/
theorem dropWhile_append_sep (sep : Char) (pre post : List Char) (hp : sep ∉ pre) :
    (pre ++ sep :: post).dropWhile (· ≠ sep) = sep :: post := by
  induction pre with
  | nil => rw [List.nil_append, List.dropWhile_cons, if_neg (by simp)]
  | cons a pre ih =>
    have ha : a ≠ sep := fun h => hp (h ▸ List.mem_cons_self a pre)
    have ih2 := ih (fun h => hp (List.mem_cons_of_mem _ h))
    rw [List.cons_append, List.dropWhile_cons, if_pos (by simp [ha]), ih2]

/-- One split step of the bounded split: the separator-free head becomes a
field and splitting continues after the separator with one unit less fuel. -/
theorem splitMaxCh_step (sep : Char) (n : Nat) (pre post : List Char) (hp : sep ∉ pre) :
    splitMaxCh sep (n + 1) (pre ++ sep :: post) = pre :: splitMaxCh sep n post := by
  rw [splitMaxCh, dropWhile_append_sep sep pre post hp]
  dsimp only
  rw [takeWhile_append_sep sep pre post hp]

/-- C1: the planner is deterministic.  Two runs over the same pool and hence
the same date range produce the same plan whatever the initial state of the
pseudo-random generator, and the target count drawn for each calendar date is
the date-determined dailyTarget on every run, because the generator is
reseeded per date from the numeric encoding of that date. -/
theorem planner_deterministic {σ : Type} (G : PyRandom σ) (g1 g2 : σ)
    (pool : List Commit) (ds : List Nat) :
    create_redistribution_plan G g1 pool = create_redistribution_plan G g2 pool
      ∧ drawnTargets G ds g1 = ds.map (fun d => (d, dailyTarget G d))
      ∧ drawnTargets G ds g2 = ds.map (fun d => (d, dailyTarget G d)) := by
  have hdt : ∀ (g : σ) (l : List Nat),
      drawnTargets G l g = l.map (fun d => (d, dailyTarget G d)) := by
    intro g l
    induction l generalizing g with
    | nil => rfl
    | cons d l ih =>
      rw [drawnTargets]
      cases hw : isWeekend d <;> simp [hw, dailyTarget, ih]
  exact ⟨by rw [create_eq_planDaysP, create_eq_planDaysP], hdt g1 ds, hdt g2 ds⟩

/-- C2: chronological order is preserved.  For any two entries of the plan,
if the original timestamp of the first strictly precedes that of the second
(as instants, the order the pool is sorted by), the newly assigned date of
the first is at most that of the second. -/
theorem plan_preserves_chronological_order {σ : Type} (G : PyRandom σ) (g : σ)
    (pool : List Commit) (i j : Nat)
    (hi : i < (create_redistribution_plan G g pool).length)
    (hj : j < (create_redistribution_plan G g pool).length)
    (hlt : timeKey ((create_redistribution_plan G g pool).get ⟨i, hi⟩).old_date
         < timeKey ((create_redistribution_plan G g pool).get ⟨j, hj⟩).old_date) :
    ((create_redistribution_plan G g pool).get ⟨i, hi⟩).new_date.ordinal
      ≤ ((create_redistribution_plan G g pool).get ⟨j, hj⟩).new_date.ordinal := by
  have hold : (create_redistribution_plan G g pool).Pairwise
      (fun e1 e2 => timeKey e1.old_date ≤ timeKey e2.old_date) := by
    rw [create_eq_planDaysP]
    have hs := List.sorted_insertionSort commitBefore pool
    have h2 := planDaysP_old_sorted G (poolDateRange pool) (pool.insertionSort commitBefore) hs
    rwa [List.pairwise_map] at h2
  have hnew : (create_redistribution_plan G g pool).Pairwise
      (fun e1 e2 => e1.new_date.ordinal ≤ e2.new_date.ordinal) := by
    rw [create_eq_planDaysP]
    exact planDaysP_new_sorted G _ _ (poolDateRange_pairwise pool)
  rw [List.pairwise_iff_getElem] at hold hnew
  rcases Nat.lt_trichotomy i j with h | h | h
  · simpa [List.get_eq_getElem] using hnew i j hi hj h
  · subst h
    exact le_rfl
  · exfalso
    have h2 := hold j i hj hi h
    simp only [List.get_eq_getElem] at hlt
    omega

/-- C2 witness: on the concrete two-commit pool wpool, both commits are
planned, their original timestamps strictly ascend, and so do their new
dates. -/
theorem plan_preserves_chronological_order_witness :
    ((create_redistribution_plan G0 0 wpool).get ⟨0, by decide⟩).new_date.ordinal
      ≤ ((create_redistribution_plan G0 0 wpool).get ⟨1, by decide⟩).new_date.ordinal :=
  plan_preserves_chronological_order G0 0 wpool 0 1 (by decide) (by decide) (by decide)

/-- C3: conservation.  For a non-empty pool, the multiset of planned commits
is contained in the pool (each input commit appears at most once in the
plan), the number of planned commits is at most the pool size, it equals the
pool size exactly when the total demand over the date range reaches the pool
size, and a day whose target exceeds the remaining pool receives exactly the
remaining commits, after which nothing more is planned. -/
theorem planner_conservation {σ : Type} (G : PyRandom σ) (g : σ) (pool : List Commit)
    (_hne : pool ≠ []) :
    ((create_redistribution_plan G g pool).map origTuple
          : Multiset (String × Timestamp × String × String))
        ≤ (pool.map commitTuple : Multiset (String × Timestamp × String × String))
      ∧ (create_redistribution_plan G g pool).length ≤ pool.length
      ∧ ((create_redistribution_plan G g pool).length = pool.length
          ↔ pool.length ≤ totalDemand G pool)
      ∧ ∀ (d : Nat) (ds : List Nat) (p : List Commit) (g' : σ),
          p.length < dailyTarget G d →
            planDays G (d :: ds) p g' = p.map (mkEntry d) := by
  have hlen : (create_redistribution_plan G g pool).length
      = min (totalDemand G pool) pool.length := by
    rw [create_eq_planDaysP, planDaysP_length, List.length_insertionSort]
    rfl
  refine ⟨?_, ?_, ?_, ?_⟩
  · rw [create_eq_planDaysP, planDaysP_map_origTuple, Multiset.coe_le]
    refine List.Subperm.trans (List.Sublist.subperm ?_)
      (((List.perm_insertionSort commitBefore pool).map commitTuple).subperm)
    exact (List.take_sublist _ _).map commitTuple
  · rw [hlen]
    exact Nat.min_le_right _ _
  · rw [hlen]
    omega
  · intro d ds p g' hlt
    rw [planDays_eq_planDaysP, planDaysP]
    have ha : min (dailyTarget G d) p.length = p.length :=
      Nat.min_eq_right (Nat.le_of_lt hlt)
    rw [ha]
    by_cases hp : 0 < p.length
    · rw [if_pos hp, List.take_length, List.drop_length, planDaysP_nil_pool, List.append_nil]
    · rw [if_neg hp]
      have hp2 : p = [] := List.length_eq_zero.mp (Nat.eq_zero_of_not_pos hp)
      subst hp2
      simp [planDaysP_nil_pool]

/-- C3 witness: the conservation properties evaluated on the concrete pool
wpool. -/
theorem planner_conservation_witness :
    ((create_redistribution_plan G0 0 wpool).map origTuple
          : Multiset (String × Timestamp × String × String))
        ≤ (wpool.map commitTuple : Multiset (String × Timestamp × String × String))
      ∧ (create_redistribution_plan G0 0 wpool).length ≤ wpool.length
      ∧ ((create_redistribution_plan G0 0 wpool).length = wpool.length
          ↔ wpool.length ≤ totalDemand G0 wpool)
      ∧ ∀ (d : Nat) (ds : List Nat) (p : List Commit) (g' : Nat),
          p.length < dailyTarget G0 d →
            planDays G0 (d :: ds) p g' = p.map (mkEntry d) :=
  planner_conservation G0 0 wpool (by decide)

/-- C4: frame condition.  Every plan entry keeps the time-of-day component
(and the UTC offset) of its original timestamp; only the calendar date
changes. -/
theorem plan_preserves_time_of_day {σ : Type} (G : PyRandom σ) (g : σ)
    (pool : List Commit) (e : PlanEntry)
    (he : e ∈ create_redistribution_plan G g pool) :
    e.new_date.tod = e.old_date.tod ∧ e.new_date.tz = e.old_date.tz := by
  rw [create_eq_planDaysP] at he
  exact (mem_planDaysP G _ _ e he).1

/-- C4 witness: the sole-day entry of wcommit1 in the plan of wpool keeps its
time of day and offset. -/
theorem plan_preserves_time_of_day_witness :
    (mkEntry 738886 wcommit1).new_date.tod = (mkEntry 738886 wcommit1).old_date.tod
      ∧ (mkEntry 738886 wcommit1).new_date.tz = (mkEntry 738886 wcommit1).old_date.tz :=
  plan_preserves_time_of_day G0 0 wpool (mkEntry 738886 wcommit1) (by decide)

/-- C5: under the randint contract of the Python random module (the draw lies
in the inclusive range), the daily target lies in 6..10 on Saturdays and
Sundays and in 2..6 on the other weekdays. -/
theorem daily_target_bounds {σ : Type} (G : PyRandom σ)
    (hr : ∀ (s : σ) (a b : Nat), a ≤ b → a ≤ (G.randint s a b).1 ∧ (G.randint s a b).1 ≤ b)
    (d : Nat) :
    (isWeekend d = true → 6 ≤ dailyTarget G d ∧ dailyTarget G d ≤ 10)
      ∧ (isWeekend d = false → 2 ≤ dailyTarget G d ∧ dailyTarget G d ≤ 6) := by
  constructor <;> intro h <;> simp only [dailyTarget, h] <;> simp
  · exact hr _ 6 10 (by omega)
  · exact hr _ 2 6 (by omega)

/-- C5 witness: the bounds at the concrete Saturday 2024-01-06 under the
concrete generator G0, whose randint answers its lower bound. -/
theorem daily_target_bounds_witness :
    (isWeekend 738891 = true → 6 ≤ dailyTarget G0 738891 ∧ dailyTarget G0 738891 ≤ 10)
      ∧ (isWeekend 738891 = false → 2 ≤ dailyTarget G0 738891 ∧ dailyTarget G0 738891 ≤ 6) :=
  daily_target_bounds G0 (fun _ a _ h => ⟨Nat.le_refl a, h⟩) 738891

/-- C6: gap detection.  Over any active-date list the detector emits exactly
one Gap per adjacent pair whose distance minus one strictly exceeds the
threshold, carrying that length and the two counts; and on the concrete pool
with counts 3 on 2024-01-01 and 2 on 2024-01-10 under threshold 7 it reports
exactly one gap of 8 days. -/
theorem gap_detection_correct :
    (∀ (thr : Nat) (cnt : Nat → Nat) (dates : List Nat),
        findGaps thr cnt dates
          = ((dates.zip dates.tail).filter (fun p => decide (thr < p.2 - p.1 - 1))).map
              (fun p => ⟨p.1, p.2, p.2 - p.1 - 1, cnt p.1, cnt p.2⟩))
      ∧ (analyze_contributions 7 gapPool).map (fun p => p.2)
        = some [⟨ordinalOfCivil 2024 1 1, ordinalOfCivil 2024 1 10, 8, 3, 2⟩] := by
  constructor
  · intro thr cnt dates
    induction dates with
    | nil => rfl
    | cons a rest ih =>
      cases rest with
      | nil => rfl
      | cons b rest2 =>
        rw [findGaps]
        by_cases h : thr < b - a - 1 <;> simp [h, ih]
  · decide

/-- C7: analyzer statistics.  For any non-empty pool the analyzer returns
stats whose total is the pool size (the per-day counts sum to the number of
commits), whose day count is the number of distinct active days, and whose
standard deviation is 0 when there are fewer than two active days (the
sample-variance guard, never dividing by zero); and on the example counts
1, 3, 5 the mean is 3, the median 3, the minimum 1 and the maximum 5. -/
theorem analyzer_stats_correct (thr : Nat) (pool : List Commit) (hne : pool ≠ []) :
    ∃ s gaps, analyze_contributions thr pool = some (s, gaps)
      ∧ s.total_commits = pool.length
      ∧ s.days_with_commits = ((pool.map fun c => c.date.ordinal).dedup).length
      ∧ (s.days_with_commits < 2 → s.std_dev_sq = 0)
      ∧ meanQ [1, 3, 5] = 3 ∧ medianQ [1, 3, 5] = 3
      ∧ listMin [1, 3, 5] = 1 ∧ listMax [1, 3, 5] = 5 := by
  refine ⟨computeStats ((activeDates pool).map (dateCount pool)),
          findGaps thr (dateCount pool) (activeDates pool),
          ?_, ?_, ?_, ?_, by norm_num [meanQ],
          by norm_num [medianQ, List.insertionSort, List.orderedInsert], by decide, by decide⟩
  · simp [analyze_contributions, hne]
  · show ((activeDates pool).map (dateCount pool)).sum = pool.length
    have hfun : dateCount pool = fun d => (pool.map fun c => c.date.ordinal).count d := by
      funext d
      rw [List.count, List.countP_map]
      rfl
    have hperm : List.Perm (activeDates pool) ((pool.map fun c => c.date.ordinal).dedup) :=
      List.perm_insertionSort _ _
    calc ((activeDates pool).map (dateCount pool)).sum
        = (((pool.map fun c => c.date.ordinal).dedup).map (dateCount pool)).sum :=
          (hperm.map (dateCount pool)).sum_eq
      _ = pool.length := by
          rw [hfun]
          have h2 := List.sum_map_count_dedup_eq_length (pool.map fun c => c.date.ordinal)
          rw [List.length_map] at h2
          exact h2
  · have hd : (computeStats ((activeDates pool).map (dateCount pool))).days_with_commits
        = ((activeDates pool).map (dateCount pool)).length := rfl
    rw [hd, List.length_map]
    unfold activeDates
    exact List.length_insertionSort _ _
  · intro hlt
    have h2 : ((activeDates pool).map (dateCount pool)).length < 2 := hlt
    have hs : (computeStats ((activeDates pool).map (dateCount pool))).std_dev_sq
        = if 1 < ((activeDates pool).map (dateCount pool)).length
          then sampleVarQ ((activeDates pool).map (dateCount pool)) else 0 := rfl
    rw [hs, if_neg (by omega)]

/-- C7 witness: the statistics facts on the single-commit pool, whose single
active day exercises the fewer-than-two-days branch. -/
theorem analyzer_stats_correct_witness :
    ∃ s gaps, analyze_contributions 7 [wcommit1] = some (s, gaps)
      ∧ s.total_commits = [wcommit1].length
      ∧ s.days_with_commits = (([wcommit1].map fun c => c.date.ordinal).dedup).length
      ∧ (s.days_with_commits < 2 → s.std_dev_sq = 0)
      ∧ meanQ [1, 3, 5] = 3 ∧ medianQ [1, 3, 5] = 3
      ∧ listMin [1, 3, 5] = 1 ∧ listMax [1, 3, 5] = 5 :=
  analyzer_stats_correct 7 [wcommit1] (by decide)

/-- C8: collector parsing.  Splitting a line on the pipe with maxsplit 3 is
truncation-tolerant: when the first three fields are pipe-free, they are
recovered exactly and every remaining character, pipes included, lands in the
last field; and any line whose split yields fewer than four fields produces
no commit record. -/
theorem collector_parsing_correct :
    (∀ h d m e : List Char, '|' ∉ h → '|' ∉ d → '|' ∉ m →
        splitMaxCh '|' 3 (h ++ '|' :: (d ++ '|' :: (m ++ '|' :: e))) = [h, d, m, e])
      ∧ ∀ (ge : Option (List Char)) (line : List Char),
          (splitMaxCh '|' 3 line).length < 4 → parseLine ge line = none := by
  constructor
  · intro h d m e hh hd hm
    rw [splitMaxCh_step _ _ _ _ hh, splitMaxCh_step _ _ _ _ hd, splitMaxCh_step _ _ _ _ hm]
    rfl
  · intro ge line hlen
    unfold parseLine
    split
    · rfl
    · split
      next h d m e heq => rw [heq] at hlen; simp at hlen
      next => rfl

/-- C8 witness: a concrete four-field line whose last field contains the
delimiter splits losslessly, and a concrete one-field line is skipped. -/
theorem collector_parsing_correct_witness :
    splitMaxCh '|' 3 (['a'] ++ '|' :: (['b'] ++ '|' :: (['c'] ++ '|' :: ['d', '|', 'e'])))
        = [['a'], ['b'], ['c'], ['d', '|', 'e']]
      ∧ parseLine none ['x'] = none :=
  ⟨collector_parsing_correct.1 ['a'] ['b'] ['c'] ['d', '|', 'e']
      (by decide) (by decide) (by decide),
   collector_parsing_correct.2 none ['x'] (by decide)⟩

/-- C9: per-repository failure isolation.  A failed git invocation yields the
empty commit list for that repository, and a run over many repositories with
one failure among them equals the run over the others: the failure neither
contributes commits nor stops the remaining repositories.  The collector is a
total function, so no exception propagates. -/
theorem repo_failure_isolated (ge : Option (List Char)) (err : List Char)
    (pre post : List (Except (List Char) (List Char))) :
    get_commits_from_repo ge (.error err) = []
      ∧ collectCommits ge (pre ++ .error err :: post)
        = collectCommits ge pre ++ collectCommits ge post := by
  refine ⟨rfl, ?_⟩
  simp [collectCommits, get_commits_from_repo]

/-- C10: the planned commits are exactly a prefix of the pool sorted
ascending by original timestamp, of length min(total demand, pool size): any
dropped commits are precisely the chronologically latest ones. -/
theorem planned_commits_are_sorted_pool_front {σ : Type} (G : PyRandom σ) (g : σ)
    (pool : List Commit) :
    (create_redistribution_plan G g pool).map origTuple
        = ((pool.insertionSort commitBefore).take
            (min (totalDemand G pool) pool.length)).map commitTuple
      ∧ (create_redistribution_plan G g pool).length
        = min (totalDemand G pool) pool.length := by
  constructor
  · rw [create_eq_planDaysP, planDaysP_map_origTuple]
    have heq : (pool.insertionSort commitBefore).take
          (((poolDateRange pool).map (dailyTarget G)).sum)
        = (pool.insertionSort commitBefore).take (min (totalDemand G pool) pool.length) := by
      apply List.take_eq_take.mpr
      rw [List.length_insertionSort]
      have h1 : ((poolDateRange pool).map (dailyTarget G)).sum = totalDemand G pool := rfl
      omega
    rw [heq]
  · rw [create_eq_planDaysP, planDaysP_length, List.length_insertionSort]
    rfl

end ContributionRedistributor
